import Mathlib

/-!
Verification of the realtime fan-out and presence subsystem of the
schmidlerChat repository (src/server/routes.ts, src/server/storage.ts,
src/shared/schema.ts), as a shallow embedding.

JS strings are modelled as lists of characters, the `clients` Map as an
association list, and the callback handlers of routes.ts as pure functions
producing an ordered trace of observable actions.
-/

namespace SchmidlerChat

/-- Characters of a JS string. -/
abbrev Str := List Char

/-- A user record of the external user store (src/shared/schema.ts `users`,
restricted to the fields the realtime core reads). -/
structure User where
  id : Nat
  username : Str
  name : Str
deriving DecidableEq, Repr

/-- One live socket: `openState` models `readyState === WebSocket.OPEN`,
`sendOk` models whether a `send` call on this socket succeeds
(`sendOk = false` means the call throws). -/
structure Conn where
  openState : Bool
  sendOk : Bool
deriving DecidableEq, Repr

/-- The connection registry `const clients = new Map<number, WebSocket>()`
(src/server/routes.ts line 28), as an association list with the Map's
insertion order. -/
abbrev Registry := List (Nat × Conn)

/-- `clients.set(userId, ws)` (src/server/routes.ts line 153): replace the
entry for the key in place if present, otherwise append. -/
def mapSet : Registry → Nat → Conn → Registry
  | [], k, v => [(k, v)]
  | (k₀, v₀) :: rest, k, v =>
    if k₀ = k then (k, v) :: rest else (k₀, v₀) :: mapSet rest k v

/-- `clients.delete(userId)` (src/server/routes.ts line 212). -/
def mapDelete : Registry → Nat → Registry
  | [], _ => []
  | (k₀, v₀) :: rest, k =>
    if k₀ = k then rest else (k₀, v₀) :: mapDelete rest k

/-- `clients.has(user.id)` (src/server/routes.ts lines 67 and 98). -/
def mapHas (l : Registry) (k : Nat) : Bool :=
  l.any (fun p => p.1 = k)

/-- `storage.getUser(id)` (src/server/storage.ts lines 109-111):
`this.users.find(user => user.id === id)`. -/
def getUser (store : List User) (id : Nat) : Option User :=
  store.find? (fun u => u.id = id)

/-- `storage.getUserByUsername(username)` (src/server/storage.ts lines
113-115): exact match on the username. -/
def getUserByUsername (store : List User) (username : Str) : Option User :=
  store.find? (fun u => u.username = username)

/-- `storage.getAllUsers()` (src/server/storage.ts lines 168-170). -/
def getAllUsers (store : List User) : List User := store

/-- One row of the `user_status` frame (src/server/routes.ts lines 94-99);
`online = true` stands for status "online". -/
structure StatusEntry where
  id : Nat
  username : Str
  name : Str
  online : Bool
deriving DecidableEq, Repr

/-- The presence snapshot computed by `broadcastUserStatus`
(src/server/routes.ts lines 92-105): one entry per user of the store,
online iff the registry has a connection under that user's id. -/
def snapshot (store : List User) (clients : Registry) : List StatusEntry :=
  store.map (fun u => ⟨u.id, u.username, u.name, mapHas clients u.id⟩)

/-- The `broadcast` helper (src/server/routes.ts lines 83-89) exactly as
written: `clients.forEach(client => { if (client.readyState === OPEN)
client.send(...) })`. There is no try/catch inside the loop, so a `send`
call that throws propagates out of `forEach` and out of `broadcast`;
this is modelled with `Except`, the `ok` value listing the keys of the
connections that received the frame, in iteration order. -/
def broadcastSrc : Registry → Except Unit (List Nat)
  | [] => .ok []
  | (u, c) :: rest =>
    if c.openState then
      if c.sendOk then
        match broadcastSrc rest with
        | .ok l => .ok (u :: l)
        | .error e => .error e
      else .error ()
    else broadcastSrc rest

/-- Modelled from the spec: the private-delivery audience of §4.4. The
router/private-delivery code of the repository is absent from src/
(src/server/routes.ts only ever broadcasts to all), so the audience
restriction follows the spec's words — delivery is attempted only on
connections bound to the sender or the recipient — while the send loop
itself is the src `broadcast` helper, with its failure behaviour. -/
def broadcastDirect (s r : Nat) (clients : Registry) : Except Unit (List Nat) :=
  broadcastSrc (clients.filter (fun p => p.1 = s || p.1 = r))

/-- JS whitespace characters relevant here. -/
def isWsChar (c : Char) : Bool :=
  c = ' ' || c = '\t' || c = '\n' || c = '\r'

/-- Value of a string of decimal digits. -/
def digitsToNat (ds : Str) : Nat :=
  ds.foldl (fun a c => a * 10 + (c.toNat - 48)) 0

/-- The leading run of decimal digits, or `none` when there is none. -/
def leadingDigits (cs : Str) : Option Nat :=
  let ds := cs.takeWhile Char.isDigit
  if ds.isEmpty then none else some (digitsToNat ds)

/-- A hexadecimal digit as JS `parseInt` accepts in radix 16. -/
def isHexDigitJs (c : Char) : Bool :=
  c.isDigit || ('a' ≤ c && c ≤ 'f') || ('A' ≤ c && c ≤ 'F')

/-- Value of one hexadecimal digit. -/
def hexDigitVal (c : Char) : Nat :=
  if c.isDigit then c.toNat - 48
  else if 'a' ≤ c && c ≤ 'f' then c.toNat - 87
  else c.toNat - 55

/-- The leading run of hexadecimal digits, or `none` when there is none. -/
def leadingHexDigits (cs : Str) : Option Nat :=
  let ds := cs.takeWhile isHexDigitJs
  if ds.isEmpty then none else some (ds.foldl (fun a c => a * 16 + hexDigitVal c) 0)

/-- The unsigned part of a radix-less JS `parseInt`: a `0x`/`0X` head
switches to radix 16 on the rest, anything else is read as the leading
decimal digit run. -/
def parseIntNat : Str → Option Nat
  | '0' :: 'x' :: rest => leadingHexDigits rest
  | '0' :: 'X' :: rest => leadingHexDigits rest
  | t => leadingDigits t

/-- JS `parseInt(s)` with no radix argument (src/server/routes.ts line
120): skip leading whitespace, optional sign, then either a `0x`/`0X`
hexadecimal literal or the leading decimal digit run; `none` models
`NaN`. The model keeps digit runs exact where a JS double would lose
precision, which is immaterial to the NaN and sign checks made of the
result. -/
def parseIntJs (s : Str) : Option Int :=
  let t := s.dropWhile isWsChar
  match t with
  | '-' :: rest => (parseIntNat rest).map (fun n => -(n : Int))
  | '+' :: rest => (parseIntNat rest).map (fun n => (n : Int))
  | _ => (parseIntNat t).map (fun n => (n : Int))

/-- A JSON value as far as the handler inspects one. -/
inductive JVal where
  | str (s : Str)
  | num (n : Int)
  | boolean (b : Bool)
  | null
deriving DecidableEq, Repr

/-- An inbound chat payload after `JSON.parse`: its `content` field, a
possible embedded `userId` field, and arbitrary further fields. The
handler (src/server/routes.ts lines 159-207) reads only `data.content`. -/
structure Payload where
  content : Option JVal
  userIdField : Option JVal
  extra : List (Str × JVal)
deriving DecidableEq, Repr

/-- `insertMessageSchema.safeParse({content, userId})`
(src/server/routes.ts lines 165-168 with src/shared/schema.ts lines
32-42): the `content` column is `text notNull`, so the generated zod
schema requires a string — any string, the empty string included; the
`userId` argument is the bound numeric identifier and always passes. -/
def validateContent : Option JVal → Option Str
  | some (.str s) => some s
  | _ => none

/-- Observable actions of the handlers, in program order. -/
inductive Act where
  | persist (content : Str) (userId : Nat)
  | bcastMessage (content : Str) (userId : Nat) (username name : Str)
  | statusBcast (snap : List StatusEntry) (recipients : List Nat)
  | errFrame
  | welcome (userId : Nat)
deriving DecidableEq, Repr

/-- Keys of the open connections of the registry: the set a `broadcast`
call actually delivers to when no send throws. -/
def openKeys (clients : Registry) : List Nat :=
  (clients.filter (fun p => p.2.openState)).map Prod.fst

/-- The `ws.on("message")` handler (src/server/routes.ts lines 159-207):
`JSON.parse` failure (`raw = none`) is caught and answered with an error
frame; schema validation failure produces an error frame; otherwise
`storage.createMessage` is awaited (`persistOk = false` models the call
throwing, caught with an error frame) and only then the chat event is
broadcast. The persisted record and the broadcast event use the bound
`userId` and the bind-time `user`, never the payload. -/
def handleMessage (uid : Nat) (user : User) (raw : Option Payload)
    (persistOk : Bool) : List Act :=
  match raw with
  | none => [.errFrame]
  | some data =>
    match validateContent data.content with
    | none => [.errFrame]
    | some content =>
      if persistOk then
        [.persist content uid, .bcastMessage content uid user.username user.name]
      else
        [.persist content uid, .errFrame]

/-- Result of one connection attempt. -/
inductive BindOutcome where
  | closed (code : Nat)
  | bound (userId : Nat)
deriving DecidableEq, Repr

/-- The tail of a successful identity check (src/server/routes.ts lines
152-156, 216-220 and the surrounding try/catch of lines 109-225):
register the connection, await the presence broadcast over the updated
registry — if a send inside it throws, the rejection reaches the outer
catch, which closes the socket with code 1011, the registry keeping the
fresh entry and the sends made before the abort going untraced — then
send the `connection_success` welcome frame to the new connection, a
throw of that send being caught and closed with 1011 the same way. The
statusBcast recipients are the keys `broadcastSrc` actually delivered
to. -/
def bindSuccess (store : List User) (clients : Registry) (uid : Nat)
    (ws : Conn) : BindOutcome × Registry × List Act :=
  let cl := mapSet clients uid ws
  match broadcastSrc cl with
  | .error _ => (.closed 1011, cl, [])
  | .ok delivered =>
    if ws.sendOk then
      (.bound uid, cl, [.statusBcast (snapshot store cl) delivered, .welcome uid])
    else
      (.closed 1011, cl, [.statusBcast (snapshot store cl) delivered])

/-- The `wss.on("connection")` handler's binding phase (src/server/routes.ts
lines 108-156 and 216-220): reject with close code 1008 when the `userId`
query parameter is absent or empty, when `parseInt` yields `NaN` or a
non-positive value, or when the identifier resolves to no stored user
(`storage.getUser`, then the `allUsers.find` fallback over the same
store); otherwise bind. -/
def handleConnection (store : List User) (clients : Registry)
    (param : Option Str) (ws : Conn) : BindOutcome × Registry × List Act :=
  match param with
  | none => (.closed 1008, clients, [])
  | some s =>
    if s.isEmpty then (.closed 1008, clients, [])
    else
      match parseIntJs s with
      | none => (.closed 1008, clients, [])
      | some n =>
        if n ≤ 0 then (.closed 1008, clients, [])
        else
          match getUser store n.toNat with
          | some _ => bindSuccess store clients n.toNat ws
          | none =>
            match (getAllUsers store).find? (fun u => u.id = n.toNat) with
            | some _ => bindSuccess store clients n.toNat ws
            | none => (.closed 1008, clients, [])

/-- The `ws.on("close")` handler (src/server/routes.ts lines 210-214):
delete the captured userId from the registry and await a fresh presence
broadcast. The callback has no try/catch of its own, so a send that
throws inside the broadcast leaves an unhandled rejection: the deletion
stands, the snapshot frame is not traced (the sends made before the
abort go untraced), and on success the statusBcast recipients are the
keys `broadcastSrc` actually delivered to. -/
def handleClose (store : List User) (clients : Registry) (uid : Nat) :
    Registry × List Act :=
  let cl := mapDelete clients uid
  match broadcastSrc cl with
  | .error _ => (cl, [])
  | .ok delivered => (cl, [.statusBcast (snapshot store cl) delivered])

/-- Registry states reachable by register/unregister transitions. -/
inductive Reach : Registry → Prop where
  | empty : Reach []
  | register (l : Registry) (k : Nat) (c : Conn) : Reach l → Reach (mapSet l k c)
  | unregister (l : Registry) (k : Nat) : Reach l → Reach (mapDelete l k)

/-- A routed message as the spec's Message Validator/Router produces it. -/
structure RoutedMessage where
  content : Str
  senderId : Nat
  isPrivate : Bool
  recipientId : Option Nat
  recipientUsername : Option Str
deriving DecidableEq, Repr

/-- Character-wise lowercasing, JS `toLowerCase`. -/
def lowerStr (s : Str) : Str := s.map Char.toLower

/-- Modelled from the spec: recipient resolution of §4.3 step 3 — the
repository's router is absent from src/ — try the lowercased token
against the user store first, then the original token. -/
def resolveRecipient (store : List User) (tok : Str) : Option User :=
  match getUserByUsername store (lowerStr tok) with
  | some u => some u
  | none => getUserByUsername store tok

/-- Modelled from the spec: §4.3 step 2 — detect `@token` followed by
whitespace and the remainder at the very start of the content; the token
is the nonempty run up to the first whitespace character, the remainder
is everything after that character. -/
def extractMention : Str → Option (Str × Str)
  | '@' :: cs =>
    let tok := cs.takeWhile (fun c => !isWsChar c)
    match cs.dropWhile (fun c => !isWsChar c) with
    | [] => none
    | _ :: rest => if tok.isEmpty then none else some (tok, rest)
  | _ => none

/-- Modelled from the spec: the Message Validator/Router of §4.3, absent
from src/ (src/server/routes.ts routes every message publicly; the
schema's isPrivate/recipientId/recipientUsername columns and the storage
visibility filter are its surviving declarations and consumers). A
resolved mention makes the message private to the resolved user with the
remainder as content; an unresolved mention leaves the whole original
content public. -/
def parseMessage (store : List User) (senderId : Nat) (content : Str) :
    RoutedMessage :=
  match extractMention content with
  | some (tok, rest) =>
    match resolveRecipient store tok with
    | some u => ⟨rest, senderId, true, some u.id, some u.username⟩
    | none => ⟨content, senderId, false, none, none⟩
  | none => ⟨content, senderId, false, none, none⟩

/-! ### Registry lemmas -/

theorem mem_mapSet_self (l : Registry) (k : Nat) (v : Conn) :
    (k, v) ∈ mapSet l k v := by
  induction l with
  | nil => simp [mapSet]
  | cons p rest ih =>
    obtain ⟨k₀, v₀⟩ := p
    by_cases h : k₀ = k <;> simp [mapSet, h, ih]

theorem mapHas_mapSet_self (l : Registry) (k : Nat) (v : Conn) :
    mapHas (mapSet l k v) k = true := by
  simp only [mapHas, List.any_eq_true]
  exact ⟨(k, v), mem_mapSet_self l k v, by simp⟩

theorem keys_mapSet_subset (l : Registry) (k : Nat) (v : Conn) :
    ∀ x ∈ (mapSet l k v).map Prod.fst, x = k ∨ x ∈ l.map Prod.fst := by
  induction l with
  | nil => simp [mapSet]
  | cons p rest ih =>
    obtain ⟨k₀, v₀⟩ := p
    intro x hx
    by_cases h : k₀ = k
    · simp [mapSet, h] at hx
      rcases hx with hx | hx
      · exact Or.inl hx
      · exact Or.inr (by simp [hx])
    · simp [mapSet, h] at hx
      rcases hx with hx | hx
      · exact Or.inr (by simp [hx])
      · rcases ih x (by simpa using hx) with h1 | h1
        · exact Or.inl h1
        · exact Or.inr (by simp [h1])

theorem keys_nodup_mapSet (l : Registry) (k : Nat) (v : Conn)
    (h : (l.map Prod.fst).Nodup) : ((mapSet l k v).map Prod.fst).Nodup := by
  induction l with
  | nil => simp [mapSet]
  | cons p rest ih =>
    obtain ⟨k₀, v₀⟩ := p
    simp only [List.map_cons, List.nodup_cons] at h
    by_cases hk : k₀ = k
    · subst hk
      simpa [mapSet, List.nodup_cons] using h
    · have := ih h.2
      simp only [mapSet, hk, if_false, List.map_cons, List.nodup_cons]
      refine ⟨fun hin => ?_, this⟩
      rcases keys_mapSet_subset rest k v k₀ hin with h1 | h1
      · exact hk h1
      · exact h.1 h1

theorem mapDelete_sublist (l : Registry) (k : Nat) :
    (mapDelete l k).Sublist l := by
  induction l with
  | nil => simp [mapDelete]
  | cons p rest ih =>
    obtain ⟨k₀, v₀⟩ := p
    by_cases hk : k₀ = k
    · simp [mapDelete, hk]
    · simpa [mapDelete, hk] using ih.cons₂ (k₀, v₀)

theorem keys_nodup_mapDelete (l : Registry) (k : Nat)
    (h : (l.map Prod.fst).Nodup) : ((mapDelete l k).map Prod.fst).Nodup := by
  induction l with
  | nil => simp [mapDelete]
  | cons p rest ih =>
    obtain ⟨k₀, v₀⟩ := p
    simp only [List.map_cons, List.nodup_cons] at h
    by_cases hk : k₀ = k
    · simpa [mapDelete, hk] using h.2
    · simp only [mapDelete, hk, if_false, List.map_cons, List.nodup_cons]
      refine ⟨fun hin => ?_, ih h.2⟩
      have : k₀ ∈ rest.map Prod.fst := by
        rcases List.mem_map.mp hin with ⟨q, hq, hq1⟩
        have : q ∈ rest := (mapDelete_sublist rest k).subset hq
        exact List.mem_map.mpr ⟨q, this, hq1⟩
      exact h.1 this

theorem mapHas_mapDelete_self (l : Registry) (k : Nat)
    (h : (l.map Prod.fst).Nodup) : mapHas (mapDelete l k) k = false := by
  induction l with
  | nil => simp [mapDelete, mapHas]
  | cons p rest ih =>
    obtain ⟨k₀, v₀⟩ := p
    simp only [List.map_cons, List.nodup_cons] at h
    by_cases hk : k₀ = k
    · subst hk
      simp only [mapDelete, if_true]
      simp only [mapHas, List.any_eq_false]
      intro q hq
      intro hq1
      exact h.1 (List.mem_map.mpr ⟨q, hq, by simpa using hq1⟩)
    · simp only [mapDelete, hk, if_false]
      have hrest := ih h.2
      simp only [mapHas, List.any_eq_false] at hrest ⊢
      intro q hq
      rcases List.mem_cons.mp hq with h1 | h1
      · subst h1
        simp [hk]
      · exact hrest q h1

theorem reach_keys_nodup {l : Registry} (h : Reach l) :
    (l.map Prod.fst).Nodup := by
  induction h with
  | empty => simp
  | register l k c _ ih => exact keys_nodup_mapSet l k c ih
  | unregister l k _ ih => exact keys_nodup_mapDelete l k ih

/-! ### List-splitting lemmas for the mention parser -/

theorem takeWhile_append_stop {p : Char → Bool} (tok : Str) (x : Char)
    (r : Str) (h : ∀ c ∈ tok, p c = true) (hx : p x = false) :
    (tok ++ x :: r).takeWhile p = tok := by
  induction tok with
  | nil => simp [List.takeWhile, hx]
  | cons c cs ih =>
    have hc : p c = true := h c (by simp)
    simp only [List.cons_append, List.takeWhile_cons, hc, if_true]
    have := ih (fun d hd => h d (by simp [hd]))
    simp [this]

theorem dropWhile_append_stop {p : Char → Bool} (tok : Str) (x : Char)
    (r : Str) (h : ∀ c ∈ tok, p c = true) (hx : p x = false) :
    (tok ++ x :: r).dropWhile p = x :: r := by
  induction tok with
  | nil => simp [List.dropWhile, hx]
  | cons c cs ih =>
    have hc : p c = true := h c (by simp)
    simp only [List.cons_append, List.dropWhile_cons, hc, if_true]
    exact ih (fun d hd => h d (by simp [hd]))

/-! ### Broadcast lemmas -/

theorem broadcastSrc_skip_closed (pre post : Registry) (u : Nat) (c : Conn)
    (h : c.openState = false) :
    broadcastSrc (pre ++ (u, c) :: post) = broadcastSrc (pre ++ post) := by
  induction pre with
  | nil => simp [broadcastSrc, h]
  | cons q rest ih =>
    obtain ⟨u₀, c₀⟩ := q
    simp only [List.cons_append, broadcastSrc, List.append_eq, ih]

theorem broadcastSrc_error_of_throw (pre post : Registry) (u : Nat) (c : Conn)
    (h1 : c.openState = true) (h2 : c.sendOk = false) :
    broadcastSrc (pre ++ (u, c) :: post) = Except.error () := by
  induction pre with
  | nil => simp [broadcastSrc, h1, h2]
  | cons q rest ih =>
    obtain ⟨u₀, c₀⟩ := q
    simp only [List.cons_append, broadcastSrc, List.append_eq, ih]
    rcases c₀.openState with _ | _ <;> rcases c₀.sendOk with _ | _ <;> simp

theorem broadcastSrc_ok_all_open (cs : Registry)
    (h : ∀ p ∈ cs, p.2.openState = true → p.2.sendOk = true) :
    broadcastSrc cs = Except.ok (openKeys cs) := by
  induction cs with
  | nil => simp [broadcastSrc, openKeys]
  | cons q rest ih =>
    obtain ⟨u₀, c₀⟩ := q
    have hrest := ih (fun p hp => h p (by simp [hp]))
    rcases ho : c₀.openState with _ | _
    · simp [broadcastSrc, ho, hrest, openKeys]
    · have hs : c₀.sendOk = true := h (u₀, c₀) (by simp) ho
      simp [broadcastSrc, ho, hs, hrest, openKeys]

theorem broadcastSrc_ok_mem {cs : Registry} {l : List Nat}
    (hok : broadcastSrc cs = Except.ok l) {u : Nat} (hu : u ∈ l) :
    ∃ c, (u, c) ∈ cs := by
  induction cs generalizing l with
  | nil =>
    have : l = [] := by simpa [broadcastSrc] using hok.symm
    rw [this] at hu
    exact absurd hu (by simp)
  | cons q rest ih =>
    obtain ⟨u₀, c₀⟩ := q
    rcases ho : c₀.openState with _ | _
    · rw [broadcastSrc, ho] at hok
      simp only [Bool.false_eq_true, if_false] at hok
      rcases ih hok hu with ⟨c, hc⟩
      exact ⟨c, by simp [hc]⟩
    · rcases hs : c₀.sendOk with _ | _
      · rw [broadcastSrc, ho, hs] at hok
        simp at hok
      · rw [broadcastSrc, ho, hs] at hok
        simp only [if_true] at hok
        rcases hrec : broadcastSrc rest with e | l₀ <;> rw [hrec] at hok
        · simp at hok
        · have hl : l = u₀ :: l₀ := by simpa using hok.symm
          rw [hl] at hu
          rcases List.mem_cons.mp hu with h | h
          · exact ⟨c₀, by simp [h]⟩
          · rcases ih hrec h with ⟨c, hc⟩
            exact ⟨c, by simp [hc]⟩

theorem broadcastSrc_ok_mem_open {cs : Registry} {l : List Nat}
    (hok : broadcastSrc cs = Except.ok l) {u : Nat} {c : Conn}
    (hm : (u, c) ∈ cs) (ho : c.openState = true) : u ∈ l := by
  induction cs generalizing l with
  | nil => exact absurd hm (by simp)
  | cons q rest ih =>
    obtain ⟨u₀, c₀⟩ := q
    rcases ho0 : c₀.openState with _ | _
    · rw [broadcastSrc, ho0] at hok
      simp only [Bool.false_eq_true, if_false] at hok
      rcases List.mem_cons.mp hm with h | h
      · have : c = c₀ := congrArg Prod.snd h
        rw [this, ho0] at ho
        exact Bool.noConfusion ho
      · exact ih hok h
    · rcases hs : c₀.sendOk with _ | _
      · rw [broadcastSrc, ho0, hs] at hok
        simp at hok
      · rw [broadcastSrc, ho0, hs] at hok
        simp only [if_true] at hok
        rcases hrec : broadcastSrc rest with e | l₀ <;> rw [hrec] at hok
        · simp at hok
        · have hl : l = u₀ :: l₀ := by simpa using hok.symm
          rw [hl]
          rcases List.mem_cons.mp hm with h | h
          · have : u = u₀ := congrArg Prod.fst h
            simp [this]
          · simp [ih hrec h]

theorem bindSuccess_bound {store : List User} {clients : Registry} {k : Nat}
    {ws : Conn} {b : Nat} {reg : Registry} {tr : List Act}
    (h : bindSuccess store clients k ws = (BindOutcome.bound b, reg, tr)) :
    b = k ∧ reg = mapSet clients k ws ∧ ws.sendOk = true ∧
    ∃ delivered, broadcastSrc (mapSet clients k ws) = Except.ok delivered ∧
      tr = [Act.statusBcast (snapshot store (mapSet clients k ws)) delivered,
            Act.welcome k] := by
  rcases hbs : broadcastSrc (mapSet clients k ws) with e | d
  · simp [bindSuccess, hbs] at h
  · rcases hws : ws.sendOk with _ | _
    · simp [bindSuccess, hbs, hws] at h
    · simp only [bindSuccess, hbs, hws, if_true, Prod.mk.injEq,
        BindOutcome.bound.injEq] at h
      exact ⟨h.1.symm, h.2.1.symm, rfl, d, rfl, h.2.2.symm⟩

theorem handleClose_fst (store : List User) (clients : Registry) (uid : Nat) :
    (handleClose store clients uid).1 = mapDelete clients uid := by
  rcases h : broadcastSrc (mapDelete clients uid) with e | d <;>
    simp [handleClose, h]

/-! ### Claim theorems -/

/-- C3 counterexample. The claim says a send failure on one connection
never prevents the delivery attempt to each remaining registered
connection and never propagates out of the broadcast call. In the src
`broadcast` (src/server/routes.ts lines 83-89) there is no try/catch, so
with a registry holding an open connection whose send throws followed by
a healthy open connection, the exception propagates out of the call and
the healthy connection is never attempted: the result is an error, not a
delivery list. -/
theorem broadcast_failure_isolation_counterexample :
    broadcastSrc [(1, ⟨true, false⟩), (2, ⟨true, true⟩)] = Except.error () ∧
    ∀ l : List Nat, broadcastSrc [(1, ⟨true, false⟩), (2, ⟨true, true⟩)] ≠ Except.ok l := by
  refine ⟨rfl, fun l h => ?_⟩
  rw [show broadcastSrc [(1, ⟨true, false⟩), (2, ⟨true, true⟩)] = Except.error () from rfl] at h
  exact Except.noConfusion h

/-- C3 (amended): in the src `broadcast`, over any registry contents, a
connection whose socket is not open is skipped without affecting the
delivery attempts to every other registered connection; but a send call
that throws — wherever the throwing connection sits in iteration order —
makes the whole call end in the propagated exception, so no connection
after it is attempted. -/
theorem broadcast_failure_isolation_amended (pre post : Registry) (u : Nat)
    (c : Conn) :
    (c.openState = false →
      broadcastSrc (pre ++ (u, c) :: post) = broadcastSrc (pre ++ post)) ∧
    (c.openState = true → c.sendOk = false →
      broadcastSrc (pre ++ (u, c) :: post) = Except.error ()) := by
  constructor
  · intro h
    exact broadcastSrc_skip_closed pre post u c h
  · intro h1 h2
    exact broadcastSrc_error_of_throw pre post u c h1 h2

/-- Witness for the amended C3 theorem at concrete registries, the
thrower sitting behind a healthy connection. -/
theorem broadcast_failure_isolation_amended_witness :
    broadcastSrc [(1, ⟨false, true⟩), (2, ⟨true, true⟩)] = broadcastSrc [(2, ⟨true, true⟩)] ∧
    broadcastSrc [(9, ⟨true, true⟩), (3, ⟨true, false⟩), (2, ⟨true, true⟩)] =
      Except.error () :=
  ⟨(broadcast_failure_isolation_amended [] [(2, ⟨true, true⟩)] 1 ⟨false, true⟩).1 rfl,
   (broadcast_failure_isolation_amended [(9, ⟨true, true⟩)] [(2, ⟨true, true⟩)] 3
      ⟨true, false⟩).2 rfl rfl⟩

/-- C1: a chat payload whose content starts with `@token`, whitespace and a
remainder, where the token resolves to a stored user, is routed as a
private message: isPrivate is true, recipientId is the resolved user's
id, recipientUsername is set, and the content is exactly the remainder
with the `@token ` head removed. -/
theorem private_routing_correct (store : List User) (senderId : Nat)
    (tok rest : Str) (u : User)
    (htok : tok ≠ [])
    (hws : ∀ c ∈ tok, isWsChar c = false)
    (hres : resolveRecipient store tok = some u) :
    parseMessage store senderId ('@' :: (tok ++ ' ' :: rest)) =
      ⟨rest, senderId, true, some u.id, some u.username⟩ := by
  have h1 : (tok ++ ' ' :: rest).takeWhile (fun c => !isWsChar c) = tok :=
    takeWhile_append_stop tok ' ' rest (fun c hc => by simp [hws c hc])
      (by simp [isWsChar])
  have h2 : (tok ++ ' ' :: rest).dropWhile (fun c => !isWsChar c) = ' ' :: rest :=
    dropWhile_append_stop tok ' ' rest (fun c hc => by simp [hws c hc])
      (by simp [isWsChar])
  have he : tok.isEmpty = false := by
    cases tok with
    | nil => exact absurd rfl htok
    | cons c cs => rfl
  simp [parseMessage, extractMention, h1, h2, he, hres]

/-- Witness for C1 at a concrete store and payload. -/
theorem private_routing_correct_witness :
    parseMessage [⟨2, ['b', 'o', 'b'], ['B', 'o', 'b']⟩] 1
      ('@' :: (['b', 'o', 'b'] ++ ' ' :: ['h', 'i'])) =
      ⟨['h', 'i'], 1, true, some 2, some ['b', 'o', 'b']⟩ :=
  private_routing_correct [⟨2, ['b', 'o', 'b'], ['B', 'o', 'b']⟩] 1
    ['b', 'o', 'b'] ['h', 'i'] ⟨2, ['b', 'o', 'b'], ['B', 'o', 'b']⟩
    (by decide) (by decide) (by decide)

/-- C2 counterexample. The claim says a public event gets a send attempt
on every currently-registered connection. In the src `broadcast`
(src/server/routes.ts lines 83-89, present in src/ and used for every
public event) a throwing send aborts the iteration: with connection 6
registered behind a throwing connection 5, the call ends in the
propagated exception and no delivery list exists, so connection 6 is
never attempted. -/
theorem public_broadcast_counterexample :
    mapHas [(5, ⟨true, false⟩), (6, ⟨true, true⟩)] 6 = true ∧
    broadcastSrc [(5, ⟨true, false⟩), (6, ⟨true, true⟩)] = Except.error () ∧
    ∀ l : List Nat,
      broadcastSrc [(5, ⟨true, false⟩), (6, ⟨true, true⟩)] ≠ Except.ok l := by
  refine ⟨rfl, rfl, fun l h => ?_⟩
  rw [show broadcastSrc [(5, ⟨true, false⟩), (6, ⟨true, true⟩)] = Except.error ()
    from rfl] at h
  exact Except.noConfusion h

/-- C2 (amended): a public message event is delivered to exactly the
currently-registered connections whose sockets are open, in registry
order, provided no send call throws (a throwing send aborts the
remaining deliveries and escapes the call); a private message event is
delivered only to connections bound to the sender or to the recipient —
whatever the broadcast returns, every delivered key is the sender's or
the recipient's, never a third party's — and under the same no-throw
proviso it reaches exactly the open connections of that audience. -/
theorem broadcast_audience_amended (clients : Registry) (s r : Nat) :
    ((∀ p ∈ clients, p.2.openState = true → p.2.sendOk = true) →
      broadcastSrc clients = Except.ok (openKeys clients)) ∧
    (∀ l, broadcastDirect s r clients = Except.ok l → ∀ u ∈ l, u = s ∨ u = r) ∧
    ((∀ p ∈ clients, p.2.openState = true → p.2.sendOk = true) →
      broadcastDirect s r clients =
        Except.ok (openKeys (clients.filter (fun p => p.1 = s || p.1 = r)))) := by
  refine ⟨fun h => broadcastSrc_ok_all_open clients h, ?_, fun h => ?_⟩
  · intro l hok u hu
    rcases broadcastSrc_ok_mem hok hu with ⟨c, hc⟩
    have := List.mem_filter.mp hc
    simpa using this.2
  · exact broadcastSrc_ok_all_open _
      (fun p hp => h p (List.mem_filter.mp hp).1)

/-- Witness for the amended C2 theorem at a concrete healthy registry. -/
theorem broadcast_audience_amended_witness :
    broadcastSrc [(1, ⟨true, true⟩), (2, ⟨false, true⟩), (3, ⟨true, true⟩)] =
      Except.ok (openKeys [(1, ⟨true, true⟩), (2, ⟨false, true⟩), (3, ⟨true, true⟩)]) ∧
    broadcastDirect 1 3 [(1, ⟨true, true⟩), (2, ⟨false, true⟩), (3, ⟨true, true⟩)] =
      Except.ok (openKeys ([(1, ⟨true, true⟩), (2, ⟨false, true⟩),
        (3, ⟨true, true⟩)].filter (fun p => p.1 = 1 || p.1 = 3))) ∧
    ((3 : Nat) = 1 ∨ (3 : Nat) = 3) :=
  ⟨(broadcast_audience_amended [(1, ⟨true, true⟩), (2, ⟨false, true⟩),
      (3, ⟨true, true⟩)] 1 3).1 (by decide),
   (broadcast_audience_amended [(1, ⟨true, true⟩), (2, ⟨false, true⟩),
      (3, ⟨true, true⟩)] 1 3).2.2 (by decide),
   (broadcast_audience_amended [(1, ⟨true, true⟩), (2, ⟨false, true⟩),
      (3, ⟨true, true⟩)] 1 3).2.1 _
     ((broadcast_audience_amended [(1, ⟨true, true⟩), (2, ⟨false, true⟩),
        (3, ⟨true, true⟩)] 1 3).2.2 (by decide)) 3 (by decide)⟩

/-- C5: in every registry state reachable by register/unregister
transitions, the presence snapshot holds exactly one entry per stored
user, online precisely when the registry has a connection under that id;
a user is online immediately after register and offline immediately
after unregister. -/
theorem presence_snapshot_correct (store : List User) (clients : Registry)
    (hr : Reach clients) :
    (∀ u ∈ store,
      (⟨u.id, u.username, u.name, mapHas clients u.id⟩ : StatusEntry) ∈
        snapshot store clients) ∧
    (∀ e ∈ snapshot store clients, ∃ u ∈ store,
      e = ⟨u.id, u.username, u.name, mapHas clients u.id⟩) ∧
    (∀ uid c, mapHas (mapSet clients uid c) uid = true) ∧
    (∀ uid, mapHas (mapDelete clients uid) uid = false) := by
  refine ⟨?_, ?_, ?_, ?_⟩
  · intro u hu
    exact List.mem_map.mpr ⟨u, hu, rfl⟩
  · intro e he
    rcases List.mem_map.mp he with ⟨u, hu, hue⟩
    exact ⟨u, hu, hue.symm⟩
  · intro uid c
    exact mapHas_mapSet_self clients uid c
  · intro uid
    exact mapHas_mapDelete_self clients uid (reach_keys_nodup hr)

/-- Witness for C5 at a concrete store and a reachable registry. -/
theorem presence_snapshot_correct_witness :
    ((⟨1, ['a'], ['b'], true⟩ : StatusEntry) ∈
      snapshot [⟨1, ['a'], ['b']⟩] (mapSet [] 1 ⟨true, true⟩)) ∧
    mapHas (mapDelete (mapSet [] 1 ⟨true, true⟩) 1) 1 = false := by
  have h := presence_snapshot_correct [⟨1, ['a'], ['b']⟩] (mapSet [] 1 ⟨true, true⟩)
      (Reach.register [] 1 ⟨true, true⟩ Reach.empty)
  refine ⟨?_, h.2.2.2 1⟩
  have h1 := h.1 ⟨1, ['a'], ['b']⟩ (by simp)
  simpa [mapSet, mapHas] using h1

/-! ### Message-handler helper lemmas -/

theorem validateContent_eq_some {o : Option JVal} {s : Str}
    (h : validateContent o = some s) : o = some (.str s) := by
  match o with
  | none => exact Option.noConfusion h
  | some (.str t) =>
    have : t = s := Option.some.inj h
    rw [this]
  | some (.num n) => exact Option.noConfusion h
  | some (.boolean b) => exact Option.noConfusion h
  | some .null => exact Option.noConfusion h

theorem handleMessage_shape (uid : Nat) (user : User) (raw : Option Payload)
    (persistOk : Bool) :
    handleMessage uid user raw persistOk = [Act.errFrame] ∨
    (∃ content, (∃ data, raw = some data ∧ validateContent data.content = some content) ∧
      ((persistOk = true ∧ handleMessage uid user raw persistOk =
          [Act.persist content uid,
           Act.bcastMessage content uid user.username user.name]) ∨
       (persistOk = false ∧ handleMessage uid user raw persistOk =
          [Act.persist content uid, Act.errFrame]))) := by
  match raw with
  | none => exact Or.inl rfl
  | some data =>
    cases hv : validateContent data.content with
    | none => exact Or.inl (by simp [handleMessage, hv])
    | some content =>
      right
      refine ⟨content, ⟨data, rfl, hv⟩, ?_⟩
      cases persistOk with
      | true => exact Or.inl ⟨rfl, by simp [handleMessage, hv]⟩
      | false => exact Or.inr ⟨rfl, by simp [handleMessage, hv]⟩

theorem persist_mem_handleMessage {uid : Nat} {user : User} {raw : Option Payload}
    {persistOk : Bool} {c : Str} {uid2 : Nat}
    (hmem : Act.persist c uid2 ∈ handleMessage uid user raw persistOk) :
    uid2 = uid ∧ ∃ data, raw = some data ∧ data.content = some (.str c) := by
  rcases handleMessage_shape uid user raw persistOk with h | ⟨content, ⟨data, hd, hv⟩, h | h⟩
  · rw [h] at hmem
    simp at hmem
  · rw [h.2] at hmem
    simp only [List.mem_cons, List.not_mem_nil, or_false] at hmem
    rcases hmem with h1 | h1
    · have h2 := (Act.persist.injEq _ _ _ _).mp h1
      rw [← h2.1] at hv
      exact ⟨h2.2, data, hd, validateContent_eq_some hv⟩
    · exact absurd h1 (by simp)
  · rw [h.2] at hmem
    simp only [List.mem_cons, List.not_mem_nil, or_false] at hmem
    rcases hmem with h1 | h1
    · have h2 := (Act.persist.injEq _ _ _ _).mp h1
      rw [← h2.1] at hv
      exact ⟨h2.2, data, hd, validateContent_eq_some hv⟩
    · exact absurd h1 (by simp)

theorem bcast_mem_handleMessage {uid : Nat} {user : User} {raw : Option Payload}
    {persistOk : Bool} {c : Str} {uid2 : Nat} {un nm : Str}
    (hmem : Act.bcastMessage c uid2 un nm ∈ handleMessage uid user raw persistOk) :
    persistOk = true ∧ uid2 = uid ∧ un = user.username ∧ nm = user.name ∧
    handleMessage uid user raw persistOk =
      [Act.persist c uid, Act.bcastMessage c uid user.username user.name] := by
  rcases handleMessage_shape uid user raw persistOk with h | ⟨content, ⟨data, hd, hv⟩, h | h⟩
  · rw [h] at hmem
    simp at hmem
  · rw [h.2] at hmem
    simp only [List.mem_cons, List.not_mem_nil, or_false] at hmem
    rcases hmem with h1 | h1
    · exact absurd h1 (by simp)
    · have h2 := (Act.bcastMessage.injEq _ _ _ _ _ _ _ _).mp h1
      rw [← h2.1] at h
      exact ⟨h.1, h2.2.1, h2.2.2.1, h2.2.2.2, h.2⟩
  · rw [h.2] at hmem
    simp at hmem

theorem mem_openKeys_of_open {clients : Registry} {k : Nat} {c : Conn}
    (hm : (k, c) ∈ clients) (ho : c.openState = true) : k ∈ openKeys clients :=
  List.mem_map.mpr ⟨(k, c), List.mem_filter.mpr ⟨hm, by simp [ho]⟩, rfl⟩

/-- C6: a message event is broadcast only when the persistence call has
completed successfully, and then directly after the persist of exactly
that content; when persistence fails, nothing is broadcast and the trace
ends in an error frame to the originating connection only. -/
theorem persisted_before_broadcast (uid : Nat) (user : User)
    (raw : Option Payload) (persistOk : Bool) :
    (∀ c uid2 un nm,
      Act.bcastMessage c uid2 un nm ∈ handleMessage uid user raw persistOk →
      persistOk = true ∧ uid2 = uid ∧
      handleMessage uid user raw persistOk =
        [Act.persist c uid, Act.bcastMessage c uid user.username user.name]) ∧
    (persistOk = false →
      (∀ c uid2 un nm,
        Act.bcastMessage c uid2 un nm ∉ handleMessage uid user raw persistOk) ∧
      (handleMessage uid user raw persistOk = [Act.errFrame] ∨
       ∃ c, handleMessage uid user raw persistOk =
         [Act.persist c uid, Act.errFrame])) := by
  constructor
  · intro c uid2 un nm hmem
    have h := bcast_mem_handleMessage hmem
    exact ⟨h.1, h.2.1, h.2.2.2.2⟩
  · intro hf
    constructor
    · intro c uid2 un nm hmem
      have h := bcast_mem_handleMessage hmem
      rw [hf] at h
      exact Bool.noConfusion h.1
    · rcases handleMessage_shape uid user raw persistOk with h | ⟨content, _, h | h⟩
      · exact Or.inl h
      · rw [hf] at h
        exact absurd h.1 (by simp)
      · exact Or.inr ⟨content, h.2⟩

/-- Witness for C6 at a concrete payload, in both persistence outcomes. -/
theorem persisted_before_broadcast_witness :
    (true = true ∧ (1 : Nat) = 1 ∧
      handleMessage 1 ⟨1, ['a'], ['n']⟩ (some ⟨some (.str ['h']), none, []⟩) true =
        [Act.persist ['h'] 1, Act.bcastMessage ['h'] 1 ['a'] ['n']]) ∧
    (handleMessage 1 ⟨1, ['a'], ['n']⟩ (some ⟨some (.str ['h']), none, []⟩) false =
        [Act.errFrame] ∨
      ∃ c, handleMessage 1 ⟨1, ['a'], ['n']⟩ (some ⟨some (.str ['h']), none, []⟩) false =
        [Act.persist c 1, Act.errFrame]) :=
  ⟨(persisted_before_broadcast 1 ⟨1, ['a'], ['n']⟩
      (some ⟨some (.str ['h']), none, []⟩) true).1 ['h'] 1 ['a'] ['n'] (by decide),
   ((persisted_before_broadcast 1 ⟨1, ['a'], ['n']⟩
      (some ⟨some (.str ['h']), none, []⟩) false).2 rfl).2⟩

/-- C7 counterexample. The claim says a payload whose content is empty or
whitespace-only is never persisted and never broadcast. The generated
zod schema for the `content` column only requires a string
(src/shared/schema.ts lines 32-42), so a whitespace-only content passes
`safeParse` and the handler persists and broadcasts it verbatim. -/
theorem message_validation_counterexample :
    handleMessage 1 ⟨1, ['a'], ['n']⟩ (some ⟨some (.str [' ']), none, []⟩) true =
      [Act.persist [' '] 1, Act.bcastMessage [' '] 1 ['a'] ['n']] := rfl

/-- C7 (amended): a payload whose content field is missing or not a string
is rejected with an error frame, persisting and broadcasting nothing;
every persisted message carries the bound sender identifier and exactly
the payload's string content — which may be empty or whitespace-only and
is not trimmed — and a successful bind only ever binds an identifier of
a stored user. -/
theorem message_validation_amended (store : List User) (uid : Nat)
    (user : User) (data : Payload) (persistOk : Bool) :
    ((data.content = none ∨ ∃ v, data.content = some v ∧ ∀ s, v ≠ .str s) →
      handleMessage uid user (some data) persistOk = [Act.errFrame]) ∧
    (∀ c uid2, Act.persist c uid2 ∈ handleMessage uid user (some data) persistOk →
      uid2 = uid ∧ data.content = some (.str c)) ∧
    (∀ clients param ws reg tr,
      handleConnection store clients param ws = (.bound uid, reg, tr) →
      ∃ u ∈ store, u.id = uid) := by
  refine ⟨?_, ?_, ?_⟩
  · intro h
    have hv : validateContent data.content = none := by
      rcases h with h | ⟨v, hv, hns⟩
      · rw [h]
        rfl
      · rw [hv]
        cases v with
        | str s => exact absurd rfl (hns s)
        | num n => rfl
        | boolean b => rfl
        | null => rfl
    simp [handleMessage, hv]
  · intro c uid2 hmem
    have h := persist_mem_handleMessage hmem
    rcases h.2 with ⟨data0, hd, hc⟩
    have : data0 = data := (Option.some.inj hd).symm
    rw [this] at hc
    exact ⟨h.1, hc⟩
  · intro clients param ws reg tr h
    simp only [handleConnection] at h
    split at h
    · exact absurd h (by simp)
    · split at h
      · exact absurd h (by simp)
      · split at h
        · exact absurd h (by simp)
        · split at h
          · exact absurd h (by simp)
          · split at h
            · rename_i u hg
              have h1 := (bindSuccess_bound h).1
              simp only [getUser] at hg
              refine ⟨u, List.mem_of_find?_eq_some hg, ?_⟩
              have h3 := List.find?_some hg
              simp only [decide_eq_true_eq] at h3
              omega
            · split at h
              · rename_i u hg
                have h1 := (bindSuccess_bound h).1
                simp only [getAllUsers] at hg
                refine ⟨u, List.mem_of_find?_eq_some hg, ?_⟩
                have h3 := List.find?_some hg
                simp only [decide_eq_true_eq] at h3
                omega
              · exact absurd h (by simp)

/-- Witness for the amended C7 theorem at concrete payloads. -/
theorem message_validation_amended_witness :
    handleMessage 1 ⟨1, ['a'], ['n']⟩ (some ⟨some (.num 7), none, []⟩) true =
      [Act.errFrame] ∧
    ((1 : Nat) = 1 ∧
      (Payload.mk (some (.str ['h'])) none []).content = some (.str ['h'])) ∧
    (∃ u ∈ [(⟨1, ['a'], ['n']⟩ : User)], u.id = 1) :=
  ⟨(message_validation_amended [] 1 ⟨1, ['a'], ['n']⟩ ⟨some (.num 7), none, []⟩ true).1
      (Or.inr ⟨.num 7, rfl, fun s h => JVal.noConfusion h⟩),
   (message_validation_amended [] 1 ⟨1, ['a'], ['n']⟩ ⟨some (.str ['h']), none, []⟩ true).2.1
      ['h'] 1 (by decide),
   (message_validation_amended [(⟨1, ['a'], ['n']⟩ : User)] 1 ⟨1, ['a'], ['n']⟩
      ⟨some (.str ['h']), none, []⟩ true).2.2 [] (some ['1']) ⟨true, true⟩
      (mapSet [] 1 ⟨true, true⟩)
      [Act.statusBcast (snapshot [(⟨1, ['a'], ['n']⟩ : User)] (mapSet [] 1 ⟨true, true⟩))
          (openKeys (mapSet [] 1 ⟨true, true⟩)),
        Act.welcome 1]
      (by decide)⟩

/-- C9: the handler derives the identity of a message from the bound
connection, never from the payload: two payloads with the same content
field — whatever their embedded userId or extra fields — produce the same
trace, and every persisted record and broadcast event carries the bound
identifier. -/
theorem payload_identity_noninterference (uid : Nat) (user : User)
    (p1 p2 : Payload) (persistOk : Bool) (h : p1.content = p2.content) :
    handleMessage uid user (some p1) persistOk =
      handleMessage uid user (some p2) persistOk ∧
    (∀ c uid2, Act.persist c uid2 ∈ handleMessage uid user (some p1) persistOk →
      uid2 = uid) ∧
    (∀ c uid2 un nm,
      Act.bcastMessage c uid2 un nm ∈ handleMessage uid user (some p1) persistOk →
      uid2 = uid) := by
  refine ⟨by simp only [handleMessage, h], ?_, ?_⟩
  · intro c uid2 hmem
    exact (persist_mem_handleMessage hmem).1
  · intro c uid2 un nm hmem
    exact (bcast_mem_handleMessage hmem).2.1

/-- Witness for C9: two payloads differing only in an embedded userId
field and an extra field produce identical traces. -/
theorem payload_identity_noninterference_witness :
    handleMessage 1 ⟨1, ['a'], ['n']⟩
      (some ⟨some (.str ['h']), some (.num 99), []⟩) true =
    handleMessage 1 ⟨1, ['a'], ['n']⟩
      (some ⟨some (.str ['h']), none, [(['x'], .num 3)]⟩) true :=
  (payload_identity_noninterference 1 ⟨1, ['a'], ['n']⟩
    ⟨some (.str ['h']), some (.num 99), []⟩
    ⟨some (.str ['h']), none, [(['x'], .num 3)]⟩ true rfl).1

/-- C8 counterexample. The claim says the connection-confirmation frame is
sent to the newly bound connection before the presence broadcast. In the
src handler the `clients.set` / `broadcastUserStatus()` pair (lines
152-156) runs before the `connection_success` send (lines 216-220), so
on a concrete successful bind every user_status action precedes the
welcome: the trace puts the presence broadcast (whose recipients include
the new, open connection with key 1) at position 0 and the welcome at
position 1. -/
theorem welcome_order_counterexample :
    (handleConnection [⟨1, ['a'], ['n']⟩] [] (some ['1']) ⟨true, true⟩).2.2 =
      [Act.statusBcast [⟨1, ['a'], ['n'], true⟩] [1], Act.welcome 1] ∧
    ∀ i j sn rec,
      (handleConnection [⟨1, ['a'], ['n']⟩] [] (some ['1']) ⟨true, true⟩).2.2.get? i =
        some (Act.welcome 1) →
      (handleConnection [⟨1, ['a'], ['n']⟩] [] (some ['1']) ⟨true, true⟩).2.2.get? j =
        some (Act.statusBcast sn rec) →
      j < i := by
  have hl : (handleConnection [⟨1, ['a'], ['n']⟩] [] (some ['1']) ⟨true, true⟩).2.2 =
      [Act.statusBcast [⟨1, ['a'], ['n'], true⟩] [1], Act.welcome 1] := by decide
  refine ⟨hl, ?_⟩
  intro i j sn rec h1 h2
  rw [hl] at h1 h2
  match j with
  | 0 =>
    match i with
    | 0 => exact absurd (Option.some.inj h1) (by simp)
    | 1 => exact Nat.zero_lt_one
    | (m + 2) => exact Option.noConfusion h1
  | 1 => exact absurd (Option.some.inj h2) (by simp)
  | (m + 2) => exact Option.noConfusion h2

/-- C8 (amended): a bind only succeeds when the awaited presence
broadcast completed without a throw and the connection-confirmation send
succeeded (a throw in either reaches the outer catch, which closes the
socket with code 1011 instead); on every successful bind the handler
registers the connection, broadcasts the presence snapshot — which that
completed broadcast delivered to the newly bound connection whenever its
socket is open — and only afterwards sends the connection-confirmation:
on the new connection the user_status frame precedes
connection_success. -/
theorem welcome_after_status (store : List User) (clients : Registry)
    (param : Option Str) (ws : Conn) (uid : Nat) (reg : Registry)
    (tr : List Act)
    (h : handleConnection store clients param ws = (.bound uid, reg, tr)) :
    reg = mapSet clients uid ws ∧ ws.sendOk = true ∧
    ∃ delivered, broadcastSrc reg = Except.ok delivered ∧
      tr = [Act.statusBcast (snapshot store reg) delivered, Act.welcome uid] ∧
      (ws.openState = true → uid ∈ delivered) := by
  simp only [handleConnection] at h
  split at h
  · exact absurd h (by simp)
  · split at h
    · exact absurd h (by simp)
    · split at h
      · exact absurd h (by simp)
      · split at h
        · exact absurd h (by simp)
        · split at h
          · obtain ⟨h1, h2, h3, d, hd, htr⟩ := bindSuccess_bound h
            subst h1
            subst h2
            exact ⟨rfl, h3, d, hd, htr, fun ho =>
              broadcastSrc_ok_mem_open hd (mem_mapSet_self clients _ ws) ho⟩
          · split at h
            · obtain ⟨h1, h2, h3, d, hd, htr⟩ := bindSuccess_bound h
              subst h1
              subst h2
              exact ⟨rfl, h3, d, hd, htr, fun ho =>
                broadcastSrc_ok_mem_open hd (mem_mapSet_self clients _ ws) ho⟩
            · exact absurd h (by simp)

/-- Witness for the amended C8 theorem at a concrete successful bind. -/
theorem welcome_after_status_witness :
    ([(1, (⟨true, true⟩ : Conn))] : Registry) = mapSet [] 1 ⟨true, true⟩ ∧
    (⟨true, true⟩ : Conn).sendOk = true :=
  let h := welcome_after_status [⟨1, ['a'], ['n']⟩] [] (some ['1']) ⟨true, true⟩ 1
    [(1, ⟨true, true⟩)]
    [Act.statusBcast [⟨1, ['a'], ['n'], true⟩] [1], Act.welcome 1]
    (by decide)
  ⟨h.1, h.2.1⟩

/-- C10: when a user's id is registered with connection c1 and then
re-registered with connection c2, a later close event of the replaced
socket c1 deletes the user's current registry entry and broadcasts a
presence snapshot reporting that user offline, even though c2 is still
open and bound to the same user. -/
theorem stale_close_drops_active_connection (store : List User)
    (clients0 : Registry) (uid : Nat) (c1 c2 : Conn) (user : User)
    (hn : (clients0.map Prod.fst).Nodup) (hu : user ∈ store)
    (hid : user.id = uid) (_hopen : c2.openState = true) :
    mapHas (handleClose store (mapSet (mapSet clients0 uid c1) uid c2) uid).1 uid
      = false ∧
    (⟨user.id, user.username, user.name, false⟩ : StatusEntry) ∈
      snapshot store
        (handleClose store (mapSet (mapSet clients0 uid c1) uid c2) uid).1 := by
  have hn2 : ((mapSet (mapSet clients0 uid c1) uid c2).map Prod.fst).Nodup :=
    keys_nodup_mapSet _ uid c2 (keys_nodup_mapSet _ uid c1 hn)
  have h1 : mapHas (mapDelete (mapSet (mapSet clients0 uid c1) uid c2) uid) uid
      = false := mapHas_mapDelete_self _ uid hn2
  have hfst : (handleClose store (mapSet (mapSet clients0 uid c1) uid c2) uid).1 =
      mapDelete (mapSet (mapSet clients0 uid c1) uid c2) uid :=
    handleClose_fst store _ uid
  refine ⟨by rw [hfst, h1], ?_⟩
  have hmem : (⟨user.id, user.username, user.name,
      mapHas (mapDelete (mapSet (mapSet clients0 uid c1) uid c2) uid) user.id⟩ :
        StatusEntry) ∈
      snapshot store (mapDelete (mapSet (mapSet clients0 uid c1) uid c2) uid) :=
    List.mem_map.mpr ⟨user, hu, rfl⟩
  rw [hfst]
  rw [hid] at hmem ⊢
  rw [h1] at hmem
  rw [← hid] at hmem ⊢
  exact hmem

/-- Witness for C10 at a concrete store, a stale closed socket c1 and a
live replacement c2. -/
theorem stale_close_drops_active_connection_witness :
    mapHas (handleClose [⟨1, ['a'], ['n']⟩]
        (mapSet (mapSet [] 1 ⟨false, true⟩) 1 ⟨true, true⟩) 1).1 1 = false ∧
    (⟨1, ['a'], ['n'], false⟩ : StatusEntry) ∈
      snapshot [⟨1, ['a'], ['n']⟩]
        (handleClose [⟨1, ['a'], ['n']⟩]
          (mapSet (mapSet [] 1 ⟨false, true⟩) 1 ⟨true, true⟩) 1).1 :=
  stale_close_drops_active_connection [⟨1, ['a'], ['n']⟩] [] 1 ⟨false, true⟩
    ⟨true, true⟩ ⟨1, ['a'], ['n']⟩ (by simp) (by simp) rfl rfl

end SchmidlerChat
